import Mathlib

/-!
Verification development for the freegeoip demo server
(`src/demos/freegeoip/freegeoip.go`).

The file shallowly embeds the two cores of the program:

* the geolocation resolver (`LookupHandler`): reserved-range check over the
  static `reservedIPs` table, followed by a SQL predecessor query
  (`WHERE city_blocks.ip_start <= ? ORDER BY city_blocks.ip_start DESC LIMIT 1`)
  over the range table, with the handler's HTTP error mapping;
* the per-client quota limiter (`checkQuota`): memcached-backed counter with
  a create-on-miss (`mc.Set` of "1" with a 3600s expiry), `strconv.Atoi`
  of the stored value, a 2000-request ceiling, and `mc.Increment`.

Machine integers are modelled as `Nat`/`Int`; the Go `strconv.Atoi`
value/error behaviour (including the clamp to `MaxInt64` on range errors)
is translated from the Go standard library, since the handler discards the
error component.  The memcached store is the program's external key/value
collaborator; its operations are modelled from the spec (get, set-with-TTL,
atomic numeric increment).
-/

/-- API limit from the source: `maxRequestsPerIP = 2000`. -/
def maxRequestsPerIP : Nat := 2000

/-- API limit from the source: `expirySeconds = 3600`. -/
def expirySeconds : Nat := 3600

/-! ## IPv4 addresses and the reserved-range table -/

/-- A 32-bit IPv4 address as its four bytes (big-endian order `b0.b1.b2.b3`). -/
structure IPv4 where
  b0 : Nat
  b1 : Nat
  b2 : Nat
  b3 : Nat
deriving DecidableEq

/-- A `net.IPNet`: base address and mask, as in the `reservedIPs` table. -/
structure IPNet where
  base : IPv4
  mask : IPv4
deriving DecidableEq

/-- Shorthand mirroring `net.IPv4(a,b,c,d)` / `net.IPv4Mask(a,b,c,d)`. -/
def mkIPv4 (a b c d : Nat) : IPv4 := ⟨a, b, c, d⟩

/-- The static `reservedIPs` table, verbatim from the source (17 entries,
including the duplicated first entry and the masks exactly as written). -/
def reservedIPs : List IPNet :=
  [ ⟨mkIPv4 0 0 0 0,         mkIPv4 255 0 0 0⟩,
    ⟨mkIPv4 0 0 0 0,         mkIPv4 255 0 0 0⟩,
    ⟨mkIPv4 10 0 0 0,        mkIPv4 255 192 0 0⟩,
    ⟨mkIPv4 100 64 0 0,      mkIPv4 255 0 0 0⟩,
    ⟨mkIPv4 127 0 0 0,       mkIPv4 255 0 0 0⟩,
    ⟨mkIPv4 169 254 0 0,     mkIPv4 255 255 0 0⟩,
    ⟨mkIPv4 172 16 0 0,      mkIPv4 255 240 0 0⟩,
    ⟨mkIPv4 192 0 0 0,       mkIPv4 255 255 255 248⟩,
    ⟨mkIPv4 192 0 2 0,       mkIPv4 255 255 255 0⟩,
    ⟨mkIPv4 192 88 99 0,     mkIPv4 255 255 255 0⟩,
    ⟨mkIPv4 192 168 0 0,     mkIPv4 255 255 0 0⟩,
    ⟨mkIPv4 198 18 0 0,      mkIPv4 255 254 0 0⟩,
    ⟨mkIPv4 198 51 100 0,    mkIPv4 255 255 255 0⟩,
    ⟨mkIPv4 203 0 113 0,     mkIPv4 255 255 255 0⟩,
    ⟨mkIPv4 224 0 0 0,       mkIPv4 240 0 0 0⟩,
    ⟨mkIPv4 240 0 0 0,       mkIPv4 240 0 0 0⟩,
    ⟨mkIPv4 255 255 255 255, mkIPv4 255 255 255 255⟩ ]

/-- Go `net.IPNet.Contains`: bytewise `base&mask == ip&mask`.  The argument is
`Option IPv4` because `net.ParseIP` yields `nil` for unparseable input and
`IP.To4()` yields `nil` for addresses without a 32-bit form; in Go, `Contains`
then fails its length check and returns `false`, hence the `none => false`
case. -/
def ipnetContains (n : IPNet) (ip : Option IPv4) : Bool :=
  match ip with
  | none => false
  | some p =>
      (n.base.b0 &&& n.mask.b0 == p.b0 &&& n.mask.b0) &&
      (n.base.b1 &&& n.mask.b1 == p.b1 &&& n.mask.b1) &&
      (n.base.b2 &&& n.mask.b2 == p.b2 &&& n.mask.b2) &&
      (n.base.b3 &&& n.mask.b3 == p.b3 &&& n.mask.b3)

/-- The handler's reserved loop: scan `reservedIPs`, first `Contains` match
wins (a `break` in the source, i.e. `List.any`). -/
def isReserved (ip : Option IPv4) : Bool :=
  reservedIPs.any (fun n => ipnetContains n ip)

/-- The read `binary.Read(bytes.NewBuffer(IP.To4()), binary.BigEndian, &uintIP)`:
the big-endian 32-bit value of the address.  When `To4()` is `nil` the read
fails with EOF, the error is discarded by the handler, and `uintIP` keeps
its zero value — hence `none => 0`. -/
def uintIPOf (ip : Option IPv4) : Nat :=
  match ip with
  | none => 0
  | some p => p.b0 * 16777216 + p.b1 * 65536 + p.b2 * 256 + p.b3

/-! ## The geolocation record and the range table -/

/-- The `GeoIP` struct of the source.  The two `float32` fields carry no
arithmetic anywhere in the program (they are copied from the database row
into the record), so they are modelled as `Int` with zero value `0`. -/
structure GeoIP where
  ip          : String := ""
  countryCode : String := ""
  countryName : String := ""
  regionCode  : String := ""
  regionName  : String := ""
  cityName    : String := ""
  zipCode     : String := ""
  latitude    : Int := 0
  longitude   : Int := 0
  metroCode   : String := ""
  areaCode    : String := ""
deriving DecidableEq

/-- One row of the joined range relation produced by the handler's SELECT:
the `city_blocks.ip_start` key together with the ten selected columns. -/
structure RangeRow where
  ip_start     : Nat
  country_code : String := ""
  country_name : String := ""
  region_code  : String := ""
  region_name  : String := ""
  city_name    : String := ""
  postal_code  : String := ""
  latitude     : Int := 0
  longitude    : Int := 0
  metro_code   : String := ""
  area_code    : String := ""
deriving DecidableEq

/-- Fold step of the `ORDER BY ip_start DESC LIMIT 1` selection: keep the
row with the larger `ip_start` (first one on ties). -/
def maxStep (acc : Option RangeRow) (r : RangeRow) : Option RangeRow :=
  match acc with
  | none => some r
  | some b => if b.ip_start < r.ip_start then some r else some b

/-- The selection `ORDER BY city_blocks.ip_start DESC LIMIT 1` over a bag of rows: a row
with maximal `ip_start` (first such row on ties). -/
def maxByStart (l : List RangeRow) : Option RangeRow :=
  l.foldl maxStep none

/-- The handler's predecessor query:
`WHERE city_blocks.ip_start <= x ORDER BY city_blocks.ip_start DESC LIMIT 1`. -/
def queryPredecessor (table : List RangeRow) (x : Nat) : Option RangeRow :=
  maxByStart (table.filter (fun r => r.ip_start ≤ x))

/-- The call `stmt.QueryRow(uintIP).Scan(...)` filling the ten record fields, with
`geoip.Ip` already set to the textual address. -/
def scanInto (addr : String) (r : RangeRow) : GeoIP :=
  { ip := addr
    countryCode := r.country_code
    countryName := r.country_name
    regionCode := r.region_code
    regionName := r.region_name
    cityName := r.city_name
    zipCode := r.postal_code
    latitude := r.latitude
    longitude := r.longitude
    metroCode := r.metro_code
    areaCode := r.area_code }

/-- Outcome of the database interaction for one query, seen by the handler:
a scanned row, `sql.ErrNoRows`, or any other scan/query failure. -/
inductive DbResult where
  | row (r : RangeRow)
  | noRows
  | queryFailure
deriving DecidableEq

/-- What the lookup handler sends back: a populated record (it then falls
through to the CSV/JSON/XML formatting), or `req.HTTPError(status, ...)`. -/
inductive HandlerResult where
  | success (g : GeoIP)
  | httpError (status : Nat)
deriving DecidableEq

/-- Core of `LookupHandler` after the address has been chosen and parsed:
reserved check, then `db.Prepare` (404 on failure), then the predecessor
query with `uintIP` (500 on `Scan` error, which includes `sql.ErrNoRows`).
The second component records the numeric argument of the issued database
query (`none` when no query was issued). -/
def lookupCore (prepareOk : Bool) (db : Nat → DbResult) (parsed : Option IPv4)
    (addr : String) : HandlerResult × Option Nat :=
  if isReserved parsed then
    (.success { ip := addr, countryCode := "RD", countryName := "Reserved" }, none)
  else if prepareOk = false then
    (.httpError 404, none)
  else
    let x := uintIPOf parsed
    match db x with
    | .row r => (.success (scanInto addr r), some x)
    | .noRows => (.httpError 500, some x)
    | .queryFailure => (.httpError 500, some x)

/-- A database backend whose joined range relation is a concrete table and
which never fails: the query is exactly `queryPredecessor`. -/
def dbOfTable (table : List RangeRow) : Nat → DbResult :=
  fun x =>
    match queryPredecessor table x with
    | some r => .row r
    | none => .noRows

/-! ## Predecessor-query lemmas -/

theorem maxByStart_eq_foldl (l : List RangeRow) :
    maxByStart l = l.foldl maxStep none := rfl

theorem foldl_maxStep_mem :
    ∀ (l : List RangeRow) (acc : Option RangeRow) (r : RangeRow),
      l.foldl maxStep acc = some r → r ∈ l ∨ acc = some r := by
  intro l
  induction l with
  | nil => intro acc r h; exact Or.inr h
  | cons c t ih =>
    intro acc r h
    rcases ih (maxStep acc c) r h with hmem | hacc
    · exact Or.inl (List.mem_cons_of_mem _ hmem)
    · match acc with
      | none =>
        simp [maxStep] at hacc
        exact Or.inl (hacc ▸ List.mem_cons_self c t)
      | some b =>
        by_cases hlt : b.ip_start < c.ip_start
        · simp [maxStep, hlt] at hacc
          exact Or.inl (hacc ▸ List.mem_cons_self c t)
        · simp [maxStep, hlt] at hacc
          exact Or.inr (by rw [hacc])

theorem foldl_maxStep_ge :
    ∀ (l : List RangeRow) (acc : Option RangeRow) (r : RangeRow),
      l.foldl maxStep acc = some r →
      (∀ b, acc = some b → b.ip_start ≤ r.ip_start) ∧
      (∀ x ∈ l, x.ip_start ≤ r.ip_start) := by
  intro l
  induction l with
  | nil =>
    intro acc r h
    refine ⟨fun b hb => ?_, fun x hx => absurd hx (List.not_mem_nil x)⟩
    rw [hb] at h; cases h; exact le_refl _
  | cons c t ih =>
    intro acc r h
    have ihs := ih (maxStep acc c) r h
    have hstep : ∀ b, maxStep acc c = some b → b.ip_start ≤ r.ip_start := ihs.1
    have hc : c.ip_start ≤ r.ip_start := by
      match acc with
      | none => exact hstep c rfl
      | some b =>
        by_cases hlt : b.ip_start < c.ip_start
        · exact hstep c (by simp [maxStep, hlt])
        · have hb := hstep b (by simp [maxStep, hlt])
          exact le_trans (le_of_not_lt hlt) hb
    refine ⟨fun b hb => ?_, fun x hx => ?_⟩
    · subst hb
      by_cases hlt : b.ip_start < c.ip_start
      · exact le_trans (le_of_lt hlt) hc
      · exact hstep b (by simp [maxStep, hlt])
    · rcases List.mem_cons.mp hx with rfl | hxt
      · exact hc
      · exact ihs.2 x hxt

theorem foldl_maxStep_ne_none :
    ∀ (l : List RangeRow) (b : RangeRow), l.foldl maxStep (some b) ≠ none := by
  intro l
  induction l with
  | nil => intro b h; cases h
  | cons c t ih =>
    intro b
    show t.foldl maxStep (maxStep (some b) c) ≠ none
    by_cases hlt : b.ip_start < c.ip_start
    · simpa [maxStep, hlt] using ih c
    · simpa [maxStep, hlt] using ih b

theorem maxByStart_eq_none_iff (l : List RangeRow) :
    maxByStart l = none ↔ l = [] := by
  cases l with
  | nil => simp [maxByStart]
  | cons c t =>
    rw [maxByStart_eq_foldl]
    constructor
    · intro h
      exact absurd h (by simpa [maxStep] using foldl_maxStep_ne_none t c)
    · intro h; cases h

theorem queryPredecessor_some (table : List RangeRow) (x : Nat) (r : RangeRow)
    (h : queryPredecessor table x = some r) :
    r ∈ table ∧ r.ip_start ≤ x ∧
    ∀ r' ∈ table, r'.ip_start ≤ x → r'.ip_start ≤ r.ip_start := by
  rw [queryPredecessor, maxByStart_eq_foldl] at h
  have hmem : r ∈ table.filter (fun r => r.ip_start ≤ x) := by
    rcases foldl_maxStep_mem _ none r h with hm | hacc
    · exact hm
    · cases hacc
  have hmem' := List.mem_filter.mp hmem
  refine ⟨hmem'.1, by simpa using hmem'.2, fun r' hr' hle => ?_⟩
  exact (foldl_maxStep_ge _ none r h).2 r'
    (List.mem_filter.mpr ⟨hr', by simpa using hle⟩)

theorem queryPredecessor_none_iff (table : List RangeRow) (x : Nat) :
    queryPredecessor table x = none ↔ ∀ r ∈ table, x < r.ip_start := by
  rw [queryPredecessor, maxByStart_eq_none_iff, List.filter_eq_nil_iff]
  constructor
  · intro h r hr
    have := h r hr
    simpa using this
  · intro h r hr
    simp [Nat.not_le, h r hr]

/-! ## Concrete range table from the spec's predecessor example -/

/-- A range row with the given `ip_start` and a distinguishing payload. -/
def sampleRow (s : Nat) (tag : String) : RangeRow :=
  { ip_start := s, country_code := tag }

/-- The spec's example table: range starts `[10, 500, 1000]` with distinct
payloads. -/
def sampleTable : List RangeRow :=
  [sampleRow 10 "A", sampleRow 500 "B", sampleRow 1000 "C"]

/-- Claim C1: for a non-reserved address, the handler's database query is the
predecessor query at the address's 32-bit big-endian value: a returned row is
a table row with the greatest `ip_start ≤ numeric(A)`, an address below every
`ip_start` yields no row (the handler's no-row error path, not a record), and
the spec's concrete example `[10, 500, 1000]` behaves as stated at
750, 999, 1000 and 5. -/
theorem C1_predecessor_resolution
    (table : List RangeRow) (p : Option IPv4) (addr : String)
    (hres : isReserved p = false) :
    (∀ r, queryPredecessor table (uintIPOf p) = some r →
        lookupCore true (dbOfTable table) p addr =
          (.success (scanInto addr r), some (uintIPOf p)) ∧
        r ∈ table ∧ r.ip_start ≤ uintIPOf p ∧
        ∀ r' ∈ table, r'.ip_start ≤ uintIPOf p → r'.ip_start ≤ r.ip_start) ∧
    (queryPredecessor table (uintIPOf p) = none ↔
        ∀ r ∈ table, uintIPOf p < r.ip_start) ∧
    ((∀ r ∈ table, uintIPOf p < r.ip_start) →
        lookupCore true (dbOfTable table) p addr = (.httpError 500, some (uintIPOf p))) ∧
    (queryPredecessor sampleTable 750 = some (sampleRow 500 "B") ∧
     queryPredecessor sampleTable 999 = some (sampleRow 500 "B") ∧
     queryPredecessor sampleTable 1000 = some (sampleRow 1000 "C") ∧
     queryPredecessor sampleTable 5 = none) := by
  refine ⟨fun r hr => ⟨?_, queryPredecessor_some table (uintIPOf p) r hr⟩, ?_, ?_, ?_⟩
  · simp [lookupCore, hres, dbOfTable, hr]
  · exact queryPredecessor_none_iff table (uintIPOf p)
  · intro h
    have hnone : queryPredecessor table (uintIPOf p) = none :=
      (queryPredecessor_none_iff table (uintIPOf p)).mpr h
    simp [lookupCore, hres, dbOfTable, hnone]
  · exact ⟨by decide, by decide, by decide, by decide⟩

theorem C1_witness :
    lookupCore true (dbOfTable sampleTable) (some (mkIPv4 8 8 8 8)) "8.8.8.8"
      = (.success (scanInto "8.8.8.8" (sampleRow 1000 "C")),
         some (uintIPOf (some (mkIPv4 8 8 8 8)))) :=
  ((C1_predecessor_resolution sampleTable (some (mkIPv4 8 8 8 8)) "8.8.8.8"
      (by decide)).1 (sampleRow 1000 "C") (by decide)).1

/-- Claim C2: for any address inside a reserved range, the handler returns
the sentinel record (`countryCode = "RD"`, `countryName = "Reserved"`), all
other fields at their zero value except the echoed address, and issues no
database query — for every backend and regardless of whether a statement
could have been prepared. -/
theorem C2_reserved_sentinel
    (prepareOk : Bool) (db : Nat → DbResult) (p : Option IPv4) (addr : String)
    (h : isReserved p = true) :
    lookupCore prepareOk db p addr =
      (.success { ip := addr, countryCode := "RD", countryName := "Reserved",
                  regionCode := "", regionName := "", cityName := "", zipCode := "",
                  latitude := 0, longitude := 0, metroCode := "", areaCode := "" },
       none) := by
  simp [lookupCore, h]

theorem C2_witness :
    lookupCore true (dbOfTable sampleTable) (some (mkIPv4 127 0 0 1)) "127.0.0.1"
      = (.success { ip := "127.0.0.1", countryCode := "RD", countryName := "Reserved",
                    regionCode := "", regionName := "", cityName := "", zipCode := "",
                    latitude := 0, longitude := 0, metroCode := "", areaCode := "" },
         none) :=
  C2_reserved_sentinel true (dbOfTable sampleTable) (some (mkIPv4 127 0 0 1))
    "127.0.0.1" (by decide)

/-- A backend whose predecessor query always reports `sql.ErrNoRows`. -/
def dbAllNoRows : Nat → DbResult := fun _ => .noRows

/-- A backend whose predecessor query always fails (storage access error). -/
def dbAllFail : Nat → DbResult := fun _ => .queryFailure

/-- Claim C5, counterexample: the claim says the absence-of-row outcome and
the storage-failure outcome are never mapped to the same outcome; but for the
non-reserved address 8.8.8.8 the handler answers `HTTPError 500` in both
cases — `sql.ErrNoRows` and a genuine query failure reach the same
`err != nil` branch of the `Scan` call. -/
theorem C5_counterexample :
    (lookupCore true dbAllNoRows (some (mkIPv4 8 8 8 8)) "8.8.8.8").1 =
      (lookupCore true dbAllFail (some (mkIPv4 8 8 8 8)) "8.8.8.8").1 ∧
    (lookupCore true dbAllNoRows (some (mkIPv4 8 8 8 8)) "8.8.8.8").1 =
      .httpError 500 := by
  exact ⟨by decide, by decide⟩

/-- Claim C5 (amended): for a non-reserved address, the no-qualifying-row
case and the storage-failure-during-query case are both surfaced as the same
`HTTPError 500`; only a statement-preparation failure is mapped to a distinct
status (`HTTPError 404`). -/
theorem C5_error_mapping
    (db : Nat → DbResult) (p : Option IPv4) (addr : String)
    (h : isReserved p = false) :
    (db (uintIPOf p) = .noRows →
      (lookupCore true db p addr).1 = .httpError 500) ∧
    (db (uintIPOf p) = .queryFailure →
      (lookupCore true db p addr).1 = .httpError 500) ∧
    (lookupCore false db p addr).1 = .httpError 404 := by
  refine ⟨fun hdb => ?_, fun hdb => ?_, ?_⟩
  · simp [lookupCore, h, hdb]
  · simp [lookupCore, h, hdb]
  · simp [lookupCore, h]

theorem C5_witness :
    (lookupCore true dbAllNoRows (some (mkIPv4 8 8 4 4)) "8.8.4.4").1 =
      .httpError 500 :=
  (C5_error_mapping dbAllNoRows (some (mkIPv4 8 8 4 4)) "8.8.4.4" (by decide)).1 rfl

/-- Claim C8: an address that does not parse to a 32-bit IPv4 value makes no
reserved range match (`Contains` fails its length check on every entry), the
`binary.Read` error is discarded leaving `uintIP = 0`, and the handler issues
the predecessor query with argument `0`; the outcome is then whatever the
backend answers for `0`, never a parse failure. -/
theorem C8_unparseable_address (db : Nat → DbResult) (addr : String) :
    isReserved none = false ∧ uintIPOf none = 0 ∧
    (lookupCore true db none addr).2 = some 0 ∧
    lookupCore true db none addr =
      (match db 0 with
       | .row r => (.success (scanInto addr r), some 0)
       | .noRows => (.httpError 500, some 0)
       | .queryFailure => (.httpError 500, some 0)) := by
  refine ⟨by decide, rfl, ?_, ?_⟩ <;>
    cases hdb : db 0 <;> simp [lookupCore, hdb, uintIPOf, isReserved, reservedIPs, ipnetContains]

/-! ## Address selection (the head of `LookupHandler`) -/

/-- Go `strings.Split(s, ":")[0]`: the prefix of `s` before its first colon
(the whole of `s` when it has none). -/
def stripPort (s : String) : String :=
  (s.data.takeWhile (fun c => c != ':')).asString

/-- What the handler proceeds with after choosing the address. -/
inductive AddrChoice where
  | useAddr (a : String)
  | badRequest
deriving DecidableEq

/-- The head of `LookupHandler`: an empty path variable selects the
requester's `RemoteAddr` with the port suffix stripped; otherwise the
address is resolved with `net.LookupHost` — a lookup error is answered with
`req.HTTPError(400, err)`, and on success `addrs[0]` is used (`LookupHost`
returns a non-empty list when it does not fail, which the source relies on;
`headD` is only ever applied to such lists in the theorems below). -/
def selectAddr (pathVar remoteAddr : String)
    (lookupHost : String → Option (List String)) : AddrChoice :=
  if pathVar = "" then .useAddr (stripPort remoteAddr)
  else
    match lookupHost pathVar with
    | none => .badRequest
    | some addrs => .useAddr (addrs.headD "")

theorem takeWhile_ne_colon (l r : List Char) (h : ':' ∉ l) :
    (l ++ ':' :: r).takeWhile (fun c => c != ':') = l := by
  induction l with
  | nil => simp [List.takeWhile]
  | cons a t ih =>
    have ha : a ≠ ':' := fun hcontra => h (hcontra ▸ List.mem_cons_self a t)
    have ht : ':' ∉ t := fun hmem => h (List.mem_cons_of_mem a hmem)
    have hb : (a != ':') = true := by simp [ha]
    simp [List.takeWhile, hb, ih ht]

theorem stripPort_append (host port : String) (h : ':' ∉ host.data) :
    stripPort (host ++ ":" ++ port) = host := by
  have hdata : (host ++ ":" ++ port).data = host.data ++ ':' :: port.data := by
    simp [String.data_append]
  rw [stripPort, hdata, takeWhile_ne_colon host.data port.data h]
  rfl

/-- Claim C10: an empty address path variable makes the handler look up the
requester's own remote address with the port suffix stripped (never an error
or an empty record); a non-empty one is resolved by a host lookup whose first
returned address is used, and a failed host lookup is a 400 error. -/
theorem C10_address_selection :
    (∀ remote f, selectAddr "" remote f = .useAddr (stripPort remote)) ∧
    (∀ host port f, ':' ∉ host.data →
        selectAddr "" (host ++ ":" ++ port) f = .useAddr host) ∧
    (∀ p r f a rest, p ≠ "" → f p = some (a :: rest) →
        selectAddr p r f = .useAddr a) ∧
    (∀ p r f, p ≠ "" → f p = none → selectAddr p r f = .badRequest) := by
  refine ⟨fun remote f => by simp [selectAddr],
          fun host port f h => by simp [selectAddr, stripPort_append host port h],
          fun p r f a rest hp hf => ?_, fun p r f hp hf => ?_⟩
  · simp [selectAddr, hp, hf]
  · simp [selectAddr, hp, hf]

theorem C10_witness :
    selectAddr "" "1.2.3.4:8080" (fun _ => none) = .useAddr "1.2.3.4" ∧
    selectAddr "example.com" "9.9.9.9:1" (fun _ => some ["93.184.216.34"]) =
      .useAddr "93.184.216.34" ∧
    selectAddr "bad.invalid" "9.9.9.9:1" (fun _ => none) = .badRequest :=
  ⟨C10_address_selection.2.1 "1.2.3.4" "8080" (fun _ => none) (by decide),
   C10_address_selection.2.2.1 "example.com" "9.9.9.9:1" (fun _ => some ["93.184.216.34"])
     "93.184.216.34" [] (by decide) rfl,
   C10_address_selection.2.2.2 "bad.invalid" "9.9.9.9:1" (fun _ => none) (by decide) rfl⟩

/-! ## `strconv.Atoi`, translated from the Go standard library

`checkQuota` runs `count, _ := strconv.Atoi(string(el.Value))`, discarding
the error.  `Atoi` is `ParseInt(s, 10, 0)` (64-bit `int`): it returns the
parsed value on success, `0` on a malformed string, and the value clamped to
`MaxInt64`/`MinInt64` on a decimal that overflows (`ErrRange` — together
with the clamped value, which the handler keeps). -/

/-- Numeric value of an ASCII digit character. -/
def digitVal (c : Char) : Nat := c.toNat - 48

/-- Result of Go `strconv.ParseUint(s, 10, 64)`. -/
inductive PURes where
  | ok (n : Nat)
  | overflowed
  | malformed
deriving DecidableEq

/-- Go `math.MaxUint64`. -/
def uintMax : Nat := 18446744073709551615

/-- Go `ParseUint`'s base-10 cutoff: `maxUint64/10 + 1`. -/
def uintCutoff : Nat := 1844674407370955162

/-- The scanning loop of `ParseUint` (base 10, 64 bits): a non-digit is a
syntax error; the overflow checks return immediately (before the rest of the
string is examined), exactly as in the Go source. -/
def parseUintLoop : List Char → Nat → PURes
  | [], acc => .ok acc
  | c :: cs, acc =>
    if c.isDigit then
      if uintCutoff ≤ acc then .overflowed
      else if uintMax < acc * 10 + digitVal c then .overflowed
      else parseUintLoop cs (acc * 10 + digitVal c)
    else .malformed

/-- Go `ParseUint(s, 10, 64)` on the (sign-stripped) character list: the empty
string is a syntax error. -/
def parseUintDec (l : List Char) : PURes :=
  match l with
  | [] => .malformed
  | _ => parseUintLoop l 0

/-- Result of Go `strconv.Atoi` with its returned value: `exact v` on
success, `clamped v` for `ErrRange` (where `v` is the clamped value that
`Atoi` still returns), `malformed` for `ErrSyntax` (returned value `0`). -/
inductive AtoiRes where
  | exact (v : Int)
  | clamped (v : Int)
  | malformed
deriving DecidableEq

/-- Go `math.MaxInt64`. -/
def intMax : Int := 9223372036854775807

/-- Go `math.MinInt64`. -/
def intMin : Int := -9223372036854775808

/-- Go `strconv.Atoi = ParseInt(s, 10, 0)`: optional sign, then `ParseUint`,
then the signed-range checks against `1 << 63`. -/
def atoiCore : List Char → AtoiRes
  | [] => .malformed
  | c :: rest =>
    let neg : Bool := c == '-'
    let digitsL := if c == '-' || c == '+' then rest else c :: rest
    match parseUintDec digitsL with
    | .malformed => .malformed
    | .overflowed => if neg then .clamped intMin else .clamped intMax
    | .ok un =>
      if neg then
        if 9223372036854775808 < un then .clamped intMin
        else .exact (-(un : Int))
      else
        if 9223372036854775808 ≤ un then .clamped intMax
        else .exact (un : Int)

/-- Go `strconv.Atoi` on the string's characters. -/
def atoiParse (s : String) : AtoiRes := atoiCore s.data

/-- The value component of `count, _ := strconv.Atoi(...)`: the error is
discarded and only the returned `int` is kept. -/
def atoiVal (s : String) : Int :=
  match atoiParse s with
  | .exact v => v
  | .clamped v => v
  | .malformed => 0

/-! ## Decimal printing and the parse/print roundtrip -/

/-- Specification-side decimal printer, equal to `Nat.repr` (proved below). -/
def natDigits (n : Nat) : List Char :=
  if n < 10 then [Nat.digitChar n]
  else natDigits (n / 10) ++ [Nat.digitChar (n % 10)]
termination_by n
decreasing_by exact Nat.div_lt_self (by omega) (by omega)

theorem toDigitsCore_eq_natDigits :
    ∀ (fuel n : Nat) (acc : List Char), n < fuel →
      Nat.toDigitsCore 10 fuel n acc = natDigits n ++ acc := by
  intro fuel
  induction fuel with
  | zero => intro n acc h; omega
  | succ f ih =>
    intro n acc h
    by_cases h10 : n / 10 = 0
    · have hn : n < 10 := by omega
      rw [natDigits]
      simp [Nat.toDigitsCore, h10, hn, Nat.mod_eq_of_lt hn]
    · have hge : ¬ n < 10 := by omega
      have hlt : n / 10 < f := by
        have hx : n / 10 < n := Nat.div_lt_self (by omega) (by omega)
        omega
      rw [natDigits]
      simp only [Nat.toDigitsCore, h10, if_neg h10, hge, if_neg hge]
      rw [ih (n / 10) _ hlt]
      simp

theorem natRepr_eq (n : Nat) : Nat.repr n = (natDigits n).asString := by
  rw [Nat.repr, Nat.toDigits, toDigitsCore_eq_natDigits (n + 1) n [] (by omega)]
  simp

theorem digitChar_isDigit (d : Nat) (h : d < 10) :
    (Nat.digitChar d).isDigit = true := by
  interval_cases d <;> decide

theorem digitVal_digitChar (d : Nat) (h : d < 10) :
    digitVal (Nat.digitChar d) = d := by
  interval_cases d <;> decide

theorem natDigits_ne_nil (n : Nat) : natDigits n ≠ [] := by
  rw [natDigits]
  by_cases h : n < 10 <;> simp [h]

theorem natDigits_all_digit (n : Nat) :
    ∀ c ∈ natDigits n, c.isDigit = true := by
  induction n using Nat.strong_induction_on with
  | _ n ih =>
    intro c hc
    rw [natDigits] at hc
    by_cases h : n < 10
    · simp [h] at hc
      exact hc ▸ digitChar_isDigit n h
    · simp [h] at hc
      rcases hc with hc | hc
      · exact ih (n / 10) (Nat.div_lt_self (by omega) (by omega)) c hc
      · exact hc ▸ digitChar_isDigit (n % 10) (Nat.mod_lt _ (by omega))

theorem parseUintLoop_append (l l' : List Char) :
    ∀ acc, parseUintLoop (l ++ l') acc =
      match parseUintLoop l acc with
      | .ok m => parseUintLoop l' m
      | .overflowed => .overflowed
      | .malformed => .malformed := by
  induction l with
  | nil => intro acc; simp [parseUintLoop]
  | cons c t ih =>
    intro acc
    by_cases h1 : c.isDigit
    · by_cases h2 : uintCutoff ≤ acc
      · simp [parseUintLoop, h1, h2]
      · by_cases h3 : uintMax < acc * 10 + digitVal c
        · simp [parseUintLoop, h1, h2, h3]
        · simp [parseUintLoop, h1, h2, h3, ih]
    · simp [parseUintLoop, h1]

theorem parseUintLoop_natDigits (n : Nat) :
    ∀ acc, acc * 10 ^ (natDigits n).length + n ≤ uintMax →
      parseUintLoop (natDigits n) acc =
        .ok (acc * 10 ^ (natDigits n).length + n) := by
  induction n using Nat.strong_induction_on with
  | _ n ih =>
    intro acc hbound
    by_cases h : n < 10
    · have he : natDigits n = [Nat.digitChar n] := by rw [natDigits]; simp [h]
      rw [he] at hbound ⊢
      simp only [List.length_cons, List.length_nil, pow_one, zero_add] at hbound ⊢
      have hd := digitChar_isDigit n h
      have hv := digitVal_digitChar n h
      have hc1 : ¬ uintCutoff ≤ acc := by
        simp only [uintCutoff, uintMax] at *; omega
      have hc2 : ¬ uintMax < acc * 10 + digitVal (Nat.digitChar n) := by
        rw [hv]; omega
      simp [parseUintLoop, hd, hc1, hc2, hv]
      exact hbound
    · have he : natDigits n = natDigits (n / 10) ++ [Nat.digitChar (n % 10)] := by
        rw [natDigits]; simp [h]
      have hdivlt : n / 10 < n := Nat.div_lt_self (by omega) (by omega)
      have hmod : n % 10 < 10 := Nat.mod_lt _ (by omega)
      rw [he] at hbound ⊢
      simp only [List.length_append, List.length_cons, List.length_nil] at hbound ⊢
      rw [parseUintLoop_append]
      have hpow : acc * 10 ^ ((natDigits (n / 10)).length + (0 + 1)) =
          acc * 10 ^ (natDigits (n / 10)).length * 10 := by ring
      rw [hpow] at hbound
      set A := acc * 10 ^ (natDigits (n / 10)).length with hA
      have hmd : n = 10 * (n / 10) + n % 10 := (Nat.div_add_mod n 10).symm
      have hsub : A + n / 10 ≤ uintMax := by
        simp only [uintMax] at *; omega
      have hrec := ih (n / 10) hdivlt acc (by rw [← hA]; exact hsub)
      rw [← hA] at hrec
      rw [hrec]
      have hd := digitChar_isDigit (n % 10) hmod
      have hv := digitVal_digitChar (n % 10) hmod
      have hc1 : ¬ uintCutoff ≤ A + n / 10 := by
        simp only [uintCutoff, uintMax] at *; omega
      have hc2 : ¬ uintMax < (A + n / 10) * 10 + digitVal (Nat.digitChar (n % 10)) := by
        rw [hv]; simp only [uintMax] at *; omega
      have hfin : (A + n / 10) * 10 + n % 10 = A * 10 + n := by omega
      simp [parseUintLoop, hd, hc1, hc2, hv, hfin, hpow]
      exact hbound

theorem isDigit_ne_signs (c : Char) (h : c.isDigit = true) :
    (c == '-') = false ∧ (c == '+') = false := by
  refine ⟨?_, ?_⟩ <;> {
    cases hb : c == _
    · rfl
    · have hc := eq_of_beq hb
      rw [hc] at h
      exact absurd h (by decide)
  }

theorem atoiParse_natRepr (m : Nat) (h : m < 9223372036854775808) :
    atoiParse (Nat.repr m) = .exact (m : Int) := by
  rw [natRepr_eq]
  obtain ⟨c, rest, he⟩ : ∃ c rest, natDigits m = c :: rest := by
    cases hcase : natDigits m with
    | nil => exact absurd hcase (natDigits_ne_nil m)
    | cons c rest => exact ⟨c, rest, rfl⟩
  have hcd : c.isDigit = true := natDigits_all_digit m c (he ▸ List.mem_cons_self c rest)
  have hsigns := isDigit_ne_signs c hcd
  have hbound : (0 : Nat) * 10 ^ (natDigits m).length + m ≤ uintMax := by
    simp only [uintMax]; omega
  have hloop := parseUintLoop_natDigits m 0 hbound
  simp only [zero_mul, zero_add] at hloop
  rw [he] at hloop
  have hm : ¬ 9223372036854775808 ≤ m := by omega
  have hdata : ((c :: rest).asString).data = c :: rest := rfl
  rw [he, atoiParse, hdata]
  simp [atoiCore, hsigns.1, hsigns.2, parseUintDec, hloop, hm]

theorem atoiVal_natRepr (m : Nat) (h : m < 9223372036854775808) :
    atoiVal (Nat.repr m) = (m : Int) := by
  simp [atoiVal, atoiParse_natRepr m h]

/-- Modelled from the spec: the shared counter store (the external memcached
collaborator) supports an atomic increment, which parses the stored bytes as
a decimal number and fails — leaving the value unchanged — when they are not
one.  This is that parse. -/
def decParse (s : String) : Option Nat :=
  match s.data with
  | [] => none
  | l => if l.all (fun c => c.isDigit) then
           some (l.foldl (fun a c => a * 10 + digitVal c) 0)
         else none

theorem foldl_digitVal_natDigits (n : Nat) :
    ∀ acc, (natDigits n).foldl (fun a c => a * 10 + digitVal c) acc =
      acc * 10 ^ (natDigits n).length + n := by
  induction n using Nat.strong_induction_on with
  | _ n ih =>
    intro acc
    by_cases h : n < 10
    · have he : natDigits n = [Nat.digitChar n] := by rw [natDigits]; simp [h]
      simp [he, digitVal_digitChar n h]
    · have he : natDigits n = natDigits (n / 10) ++ [Nat.digitChar (n % 10)] := by
        rw [natDigits]; simp [h]
      have hdivlt : n / 10 < n := Nat.div_lt_self (by omega) (by omega)
      rw [he, List.foldl_append, ih (n / 10) hdivlt acc]
      simp only [List.foldl_cons, List.foldl_nil, List.length_append,
        List.length_cons, List.length_nil, digitVal_digitChar (n % 10) (Nat.mod_lt _ (by omega))]
      have hpow : acc * 10 ^ ((natDigits (n / 10)).length + (0 + 1)) =
          acc * 10 ^ (natDigits (n / 10)).length * 10 := by ring
      rw [hpow]
      have hmd : n = 10 * (n / 10) + n % 10 := (Nat.div_add_mod n 10).symm
      set A := acc * 10 ^ (natDigits (n / 10)).length
      omega

theorem decParse_natRepr (m : Nat) : decParse (Nat.repr m) = some m := by
  rw [natRepr_eq]
  obtain ⟨c, rest, he⟩ : ∃ c rest, natDigits m = c :: rest := by
    cases hcase : natDigits m with
    | nil => exact absurd hcase (natDigits_ne_nil m)
    | cons c rest => exact ⟨c, rest, rfl⟩
  have hall : (c :: rest).all (fun c => c.isDigit) = true := by
    rw [← he]
    exact List.all_eq_true.mpr (natDigits_all_digit m)
  have hfold := foldl_digitVal_natDigits m 0
  rw [he] at hfold
  simp only [zero_mul, zero_add] at hfold
  have hdata : ((c :: rest).asString).data = c :: rest := rfl
  rw [he, decParse, hdata]
  simp [hall, hfold]

/-! ## The quota limiter (`checkQuota`) -/

/-- What `mc.Get(k)` reports: a stored value, `memcache.ErrCacheMiss`, or
any other (network/server) error. -/
inductive GetOutcome where
  | hit (v : String)
  | miss
  | unreachable
deriving DecidableEq

/-- The three ways one `checkQuota` call can end: proceed to the wrapped
lookup (`fn(req, db)`), `req.HTTPError(403)` (quota exceeded), or
`req.HTTPError(503, err)` (counter store failure). -/
inductive QuotaOutcome where
  | allowed
  | denied
  | serverError
deriving DecidableEq

/-- The behaviour of the counter store during one `checkQuota` call: the
`Get` outcome and whether the `Set` / `Increment` operations, if issued,
succeed.  `incrOk` exists because the source discards `mc.Increment`'s
return values — it must not influence the outcome. -/
structure Backend where
  getR : GetOutcome
  setOk : Bool
  incrOk : Bool
deriving DecidableEq

/-- The function `checkQuota`, translated: on a cache miss, `mc.Set(k, "1", 3600)` and —
when the `Set` (or a non-miss `Get` error) fails — a 503; with a stored
value, `count, _ := strconv.Atoi(...)` and either `mc.Increment(k, 1)` and
the wrapped call (`count < maxRequestsPerIP`), or a 403.  The result of
`mc.Increment` is ignored by the source, so `b.incrOk` does not occur in
this definition. -/
def checkQuota (b : Backend) : QuotaOutcome :=
  match b.getR with
  | .unreachable => .serverError
  | .miss => if b.setOk then .allowed else .serverError
  | .hit v => if atoiVal v < (maxRequestsPerIP : Int) then .allowed else .denied

/-- The store operations a `checkQuota` call issues (beyond the `Get`). -/
inductive StoreOp where
  | setOp (v : String) (ttl : Nat)
  | incrOp (d : Nat)
deriving DecidableEq

/-- The operations issued by `checkQuota` for a given backend behaviour:
`mc.Set(k, "1", expirySeconds)` on a miss, `mc.Increment(k, 1)` when the
count is below the ceiling, nothing when the call is denied. -/
def quotaOps (b : Backend) : List StoreOp :=
  match b.getR with
  | .unreachable => []
  | .miss => [.setOp "1" expirySeconds]
  | .hit v => if atoiVal v < (maxRequestsPerIP : Int) then [.incrOp 1] else []

/-- Modelled from the spec: effect of one store operation on the single-key
store state.  `Set` overwrites unconditionally; the atomic increment parses
the stored decimal value, adds wrapping at `2^64`, fails silently when the
key is absent, and leaves a non-decimal value unchanged (the source ignores
the returned error in all these cases). -/
def applyOp (s : Option String) (op : StoreOp) : Option String :=
  match op with
  | .setOp v _ => some v
  | .incrOp d =>
    match s with
    | none => none
    | some v =>
      match decParse v with
      | some n => some (Nat.repr ((n + d) % 18446744073709551616))
      | none => some v

/-- Apply a list of store operations in order. -/
def applyOps (s : Option String) (ops : List StoreOp) : Option String :=
  ops.foldl applyOp s

/-- The backend behaviour seen by a call when the store is reachable and
holds `s` for the client's key. -/
def backendOf (s : Option String) : Backend :=
  { getR := match s with | none => .miss | some v => .hit v
    setOk := true
    incrOk := true }

/-- One complete `checkQuota` call against a reachable store holding `s`:
the decision and the store state afterwards. -/
def quotaStep (s : Option String) : QuotaOutcome × Option String :=
  (checkQuota (backendOf s), applyOps s (quotaOps (backendOf s)))

/-- Store state for one key after `n` consecutive `checkQuota` calls inside
one TTL window, starting from an absent counter. -/
def quotaState : Nat → Option String
  | 0 => none
  | n + 1 => (quotaStep (quotaState n)).2

/-- Decision of call `n + 1` (the call made from state `quotaState n`). -/
def quotaDecision (n : Nat) : QuotaOutcome := (quotaStep (quotaState n)).1

/-- Store operations issued by call `n + 1`. -/
def quotaOpsAt (n : Nat) : List StoreOp := quotaOps (backendOf (quotaState n))

/-- The counter value as the limiter reads it (`Atoi` of the stored bytes,
`0` for an absent key). -/
def quotaCount (s : Option String) : Int :=
  match s with
  | none => 0
  | some v => atoiVal v

theorem quotaStep_none : quotaStep none = (.allowed, some (Nat.repr 1)) := rfl

theorem quotaStep_hit_lt (m : Nat) (h1 : m < maxRequestsPerIP) :
    quotaStep (some (Nat.repr m)) = (.allowed, some (Nat.repr (m + 1))) := by
  have hm63 : m < 9223372036854775808 := by
    simp only [maxRequestsPerIP] at h1; omega
  have hval : atoiVal (Nat.repr m) = (m : Int) := atoiVal_natRepr m hm63
  have hlt : atoiVal (Nat.repr m) < (maxRequestsPerIP : Int) := by
    rw [hval]; exact_mod_cast h1
  have hmod : (m + 1) % 18446744073709551616 = m + 1 :=
    Nat.mod_eq_of_lt (by simp only [maxRequestsPerIP] at h1; omega)
  simp [quotaStep, backendOf, checkQuota, quotaOps, applyOps, applyOp, hlt,
    decParse_natRepr m, hmod]

theorem quotaStep_hit_ge (v : String) (h : (maxRequestsPerIP : Int) ≤ atoiVal v) :
    quotaStep (some v) = (.denied, some v) := by
  have hnlt : ¬ atoiVal v < (maxRequestsPerIP : Int) := not_lt.mpr h
  simp [quotaStep, backendOf, checkQuota, quotaOps, applyOps, hnlt]

theorem quotaState_closed_form (n : Nat) :
    quotaState (n + 1) = some (Nat.repr (min (n + 1) maxRequestsPerIP)) := by
  induction n with
  | zero =>
    show (quotaStep (quotaState 0)).2 = _
    rw [show quotaState 0 = none from rfl, quotaStep_none]
    have h1 : min 1 maxRequestsPerIP = 1 := by simp [maxRequestsPerIP]
    rw [h1]
  | succ k ih =>
    show (quotaStep (quotaState (k + 1))).2 = _
    rw [ih]
    by_cases hlt : min (k + 1) maxRequestsPerIP < maxRequestsPerIP
    · rw [quotaStep_hit_lt _ hlt]
      have he : min (k + 1) maxRequestsPerIP + 1 = min (k + 1 + 1) maxRequestsPerIP := by
        simp only [maxRequestsPerIP] at *; omega
      rw [he]
    · have heq : min (k + 1) maxRequestsPerIP = maxRequestsPerIP := by
        simp only [maxRequestsPerIP] at *; omega
      have hge : (maxRequestsPerIP : Int) ≤ atoiVal (Nat.repr (min (k + 1) maxRequestsPerIP)) := by
        rw [heq, atoiVal_natRepr maxRequestsPerIP (by simp [maxRequestsPerIP])]
      rw [quotaStep_hit_ge _ hge]
      have he : min (k + 1) maxRequestsPerIP = min (k + 1 + 1) maxRequestsPerIP := by
        simp only [maxRequestsPerIP] at *; omega
      rw [he]

theorem quotaDecision_closed_form (n : Nat) :
    quotaDecision n = if n < maxRequestsPerIP then .allowed else .denied := by
  cases n with
  | zero =>
    rw [quotaDecision, show quotaState 0 = none from rfl, quotaStep_none]
    simp [maxRequestsPerIP]
  | succ k =>
    rw [quotaDecision, quotaState_closed_form k]
    by_cases h : k + 1 < maxRequestsPerIP
    · have hlt : min (k + 1) maxRequestsPerIP < maxRequestsPerIP := by
        simp only [maxRequestsPerIP] at *; omega
      rw [quotaStep_hit_lt _ hlt, if_pos h]
    · have heq : min (k + 1) maxRequestsPerIP = maxRequestsPerIP := by
        simp only [maxRequestsPerIP] at *; omega
      have hge : (maxRequestsPerIP : Int) ≤ atoiVal (Nat.repr (min (k + 1) maxRequestsPerIP)) := by
        rw [heq, atoiVal_natRepr maxRequestsPerIP (by simp [maxRequestsPerIP])]
      rw [quotaStep_hit_ge _ hge, if_neg h]

/-- Claim C6: starting from an absent counter, call 1 issues
`mc.Set(k, "1", 3600)` (counter created at 1 with the TTL), every later
allowed call issues exactly one `mc.Increment(k, 1)`, and after `N ≤ 2000`
consecutive calls — all allowed — the stored counter reads exactly `N`. -/
theorem C6_quota_monotonic (N : Nat) (h1 : 1 ≤ N) (h2 : N ≤ maxRequestsPerIP) :
    quotaState N = some (Nat.repr N) ∧
    (∀ k, k < N → quotaDecision k = .allowed) ∧
    quotaOpsAt 0 = [.setOp "1" expirySeconds] ∧
    (∀ k, 1 ≤ k → k < N → quotaOpsAt k = [.incrOp 1]) := by
  refine ⟨?_, fun k hk => ?_, rfl, fun k hk1 hk2 => ?_⟩
  · obtain ⟨M, rfl⟩ : ∃ M, N = M + 1 := ⟨N - 1, by omega⟩
    rw [quotaState_closed_form M]
    have hmin : min (M + 1) maxRequestsPerIP = M + 1 := by
      simp only [maxRequestsPerIP] at *; omega
    rw [hmin]
  · rw [quotaDecision_closed_form,
      if_pos (by simp only [maxRequestsPerIP] at *; omega)]
  · obtain ⟨j, rfl⟩ : ∃ j, k = j + 1 := ⟨k - 1, by omega⟩
    rw [quotaOpsAt, quotaState_closed_form j]
    have hmin : min (j + 1) maxRequestsPerIP = j + 1 := by
      simp only [maxRequestsPerIP] at *; omega
    rw [hmin]
    have hval : atoiVal (Nat.repr (j + 1)) = ((j + 1 : Nat) : Int) :=
      atoiVal_natRepr _ (by simp only [maxRequestsPerIP] at *; omega)
    have hlt : atoiVal (Nat.repr (j + 1)) < (maxRequestsPerIP : Int) := by
      rw [hval]
      exact_mod_cast (by simp only [maxRequestsPerIP] at *; omega : j + 1 < maxRequestsPerIP)
    simp [quotaOps, backendOf, hlt]

theorem C6_witness :
    quotaState 3 = some (Nat.repr 3) ∧
    (∀ k, k < 3 → quotaDecision k = .allowed) ∧
    quotaOpsAt 0 = [.setOp "1" expirySeconds] ∧
    (∀ k, 1 ≤ k → k < 3 → quotaOpsAt k = [.incrOp 1]) :=
  C6_quota_monotonic 3 (by decide) (by decide)

/-- Claim C3: along the limiter's own trace the counter value never exceeds
2000; a call that reads a value at or above the ceiling is denied and issues
no store operation (the state is unchanged, for any such value); in
particular the 2001st call (index 2000) is denied and the counter afterwards
still reads exactly 2000. -/
theorem C3_quota_ceiling (n : Nat) :
    quotaCount (quotaState n) ≤ (maxRequestsPerIP : Int) ∧
    (∀ v, (maxRequestsPerIP : Int) ≤ atoiVal v → quotaStep (some v) = (.denied, some v)) ∧
    (maxRequestsPerIP ≤ n → quotaDecision n = .denied ∧ quotaState (n + 1) = quotaState n) ∧
    quotaDecision maxRequestsPerIP = .denied ∧
    quotaState (maxRequestsPerIP + 1) = some (Nat.repr maxRequestsPerIP) := by
  refine ⟨?_, fun v hv => quotaStep_hit_ge v hv, fun hge => ⟨?_, ?_⟩, ?_, ?_⟩
  · cases n with
    | zero =>
      rw [show quotaState 0 = none from rfl]
      simp [quotaCount, maxRequestsPerIP]
    | succ k =>
      rw [quotaState_closed_form k]
      have hval := atoiVal_natRepr (min (k + 1) maxRequestsPerIP)
        (by simp only [maxRequestsPerIP]; omega)
      simp only [quotaCount, hval]
      exact_mod_cast (by simp only [maxRequestsPerIP]; omega :
        min (k + 1) maxRequestsPerIP ≤ maxRequestsPerIP)
  · rw [quotaDecision_closed_form, if_neg (by omega)]
  · obtain ⟨k, rfl⟩ : ∃ k, n = k + 1 :=
      ⟨n - 1, by simp only [maxRequestsPerIP] at hge; omega⟩
    rw [quotaState_closed_form (k + 1), quotaState_closed_form k]
    have he : min (k + 1 + 1) maxRequestsPerIP = min (k + 1) maxRequestsPerIP := by
      simp only [maxRequestsPerIP] at *; omega
    rw [he]
  · rw [quotaDecision_closed_form, if_neg (by omega)]
  · rw [quotaState_closed_form maxRequestsPerIP]
    have he : min (maxRequestsPerIP + 1) maxRequestsPerIP = maxRequestsPerIP := by
      simp only [maxRequestsPerIP]; omega
    rw [he]

theorem C3_witness :
    quotaDecision 2500 = .denied ∧ quotaState (2500 + 1) = quotaState 2500 :=
  (C3_quota_ceiling 2500).2.2.1 (by decide)

/-- Claim C4, counterexample: the claim says a store failure at any of the
three steps — including the increment — yields the distinct server error.
But the source discards `mc.Increment`'s error: with a reachable `Get`
returning "5" and the increment step failing, the call is still `allowed`. -/
theorem C4_counterexample :
    checkQuota ⟨.hit "5", true, false⟩ = .allowed ∧
    QuotaOutcome.allowed ≠ QuotaOutcome.serverError :=
  ⟨by decide, by decide⟩

/-- Claim C4 (amended): a store failure at the initial read or at the
create-on-miss is surfaced as the distinct 503 server error (never a silent
allow or deny); a failure at the increment step, however, is ignored — the
outcome is `allowed` whenever the read value is below the ceiling,
independently of whether the increment reaches the store. -/
theorem C4_backend_failures (b : Backend) :
    (b.getR = .unreachable → checkQuota b = .serverError) ∧
    (b.getR = .miss → b.setOk = false → checkQuota b = .serverError) ∧
    (∀ v, b.getR = .hit v → atoiVal v < (maxRequestsPerIP : Int) →
        checkQuota b = .allowed) := by
  refine ⟨fun h => ?_, fun h hs => ?_, fun v h hlt => ?_⟩ <;>
    simp [checkQuota, h, *]

theorem C4_witness :
    checkQuota ⟨.unreachable, true, true⟩ = .serverError ∧
    checkQuota ⟨.miss, false, true⟩ = .serverError ∧
    checkQuota ⟨.hit "7", true, false⟩ = .allowed :=
  ⟨(C4_backend_failures ⟨.unreachable, true, true⟩).1 rfl,
   (C4_backend_failures ⟨.miss, false, true⟩).2.1 rfl rfl,
   (C4_backend_failures ⟨.hit "7", true, false⟩).2.2 "7" rfl (by decide)⟩

/-- Claim C9, counterexample: "99999999999999999999" is not a parseable
decimal `int` (`Atoi` reports `ErrRange`), yet the call is denied, not
allowed: the discarded-error value is the clamped `MaxInt64`, which is at or
above the ceiling — so a corrupted counter value can cause `Denied`. -/
theorem C9_counterexample :
    atoiParse "99999999999999999999" = .clamped intMax ∧
    checkQuota ⟨.hit "99999999999999999999", true, true⟩ = .denied ∧
    QuotaOutcome.denied ≠ QuotaOutcome.allowed :=
  ⟨by decide, by decide, by decide⟩

/-- Claim C9 (amended): for a stored value on which `Atoi` fails with a
syntax error the conversion error is ignored, the count is read as `0`, the
call is allowed and an increment is issued; but a decimal value out of the
64-bit `int` range is clamped (not read as `0`) and can be denied. -/
theorem C9_corrupt_value (v : String) (b1 b2 : Bool)
    (h : atoiParse v = .malformed) :
    checkQuota ⟨.hit v, b1, b2⟩ = .allowed ∧
    quotaOps ⟨.hit v, b1, b2⟩ = [.incrOp 1] := by
  have hv : atoiVal v = 0 := by simp [atoiVal, h]
  have hlt : atoiVal v < (maxRequestsPerIP : Int) := by
    rw [hv]; decide
  exact ⟨by simp [checkQuota, hlt], by simp [quotaOps, hlt]⟩

theorem C9_witness :
    checkQuota ⟨.hit "abc", true, true⟩ = .allowed ∧
    quotaOps ⟨.hit "abc", true, true⟩ = [.incrOp 1] :=
  C9_corrupt_value "abc" true true (by decide)

/-! ## Interleaved `checkQuota` calls against the shared store -/

/-- Progress of one in-flight `checkQuota` call: before its `mc.Get`, after
the `Get` (holding the value it read), or finished with its decision. -/
inductive CallPoint where
  | atStart
  | afterGet (el : Option String)
  | finished (wasAllowed : Bool)
deriving DecidableEq

/-- One atomic step of an in-flight call against the shared single-key
store.  `atStart` executes the `mc.Get`; `afterGet none` executes the
miss-path `mc.Set(k, "1", expirySeconds)` — an unconditional overwrite, the
source does not use an atomic create-if-absent — after which the call is
allowed; `afterGet (some v)` executes `mc.Increment(k, 1)` and is allowed
when `Atoi` of the value it read is below the ceiling, and is denied with no
store operation otherwise. -/
def callStep (s : Option String) (t : CallPoint) : Option String × CallPoint :=
  match t with
  | .atStart => (s, .afterGet s)
  | .afterGet none => (applyOp s (.setOp "1" expirySeconds), .finished true)
  | .afterGet (some v) =>
    if atoiVal v < (maxRequestsPerIP : Int) then
      (applyOp s (.incrOp 1), .finished true)
    else (s, .finished false)
  | .finished a => (s, .finished a)

/-- Run a schedule over a pool of in-flight calls: at each schedule entry,
the call with that index performs its next atomic step. -/
def runSched : Option String → List CallPoint → List Nat → Option String × List CallPoint
  | s, ts, [] => (s, ts)
  | s, ts, i :: rest =>
    match ts.get? i with
    | none => runSched s ts rest
    | some t => runSched (callStep s t).1 (ts.set i (callStep s t).2) rest

/-- Claim C7, evaluated at the failing interleaving: two concurrent first
calls (`M = 2`, pre-call count `0`) for a fresh key, scheduled
Get₀, Get₁, Set₀, Set₁.  Both calls observe a miss, both `Set` the counter
to "1", both are allowed — but the final counter is "1", not the claimed
pre-call count plus `M` (= "2"): the read-then-write miss path loses an
update. -/
theorem C7_lost_update :
    runSched none [.atStart, .atStart] [0, 1, 0, 1] =
      (some "1", [.finished true, .finished true]) ∧
    (some "1" : Option String) ≠ some (Nat.repr 2) :=
  ⟨by decide, by decide⟩
